import Mathlib

/-!
Verification of the Scene Timeline Builder and Subtitle Segmenter of the
podcast-video composer.

The source is a TypeScript/React (Remotion) project.  The two algorithmic
pieces live in the video-composition component:

* `splitDialogueIntoChunks` plus the per-scene subtitle timing (`chunks`
  memo of `SceneComponent`), and
* the `timeline` memo of `MyVideoComposition` (scene placements with a
  fixed transition overlap), together with `getDurationInFrames` in
  `App.tsx` (total composition length).

Strings are embedded as `List Char` (JavaScript string lengths of the
Japanese text used here coincide with character counts, all code points
lying in the BMP).  JavaScript numbers are embedded as `ℚ` (durations,
subtitle frame positions) and `ℤ` (integer frame counts); all arithmetic
appearing in the source is exact on these inputs.
-/

/-! ### Data model (`src/types.ts`) -/

/-- `DataOverlay` record from `types.ts`. -/
structure DataOverlay where
  title : List Char
  subhead : Option (List Char)
  headers : List (List Char)
  row : List (List Char)
deriving DecidableEq

/-- `Scene` record from `types.ts`. -/
structure Scene where
  dialogue : List Char
  visualDescription : List Char
  keyword : List Char
  durationInSeconds : ℚ
  backgroundColor : List Char
  audioUrl : Option (List Char)
  phoneticDialogue : Option (List Char)
  dataOverlay : DataOverlay
deriving DecidableEq

/-- `export const FPS = 30` (`types.ts`). -/
def FPS : ℤ := 30

/-- `export const TRANSITION_DURATION_IN_FRAMES = 15` (`types.ts`). -/
def TRANSITION_DURATION_IN_FRAMES : ℤ := 15

/-! ### Scene Timeline Builder (`timeline` memo of `MyVideoComposition`) -/

/-- One element of the `timeline` array: `{ startFrame, durationInFrames }`. -/
structure TimelinePlacement where
  startFrame : ℤ
  durationInFrames : ℤ
deriving DecidableEq

/-- The loop body of the `timeline` memo: `scenes.map` with the mutable
`currentFrame` cursor made explicit.  For each scene,
`durationInFrames = Math.ceil(scene.durationInSeconds * FPS)`,
`startFrame = currentFrame`, and the cursor advances by
`Math.max(0, durationInFrames - TRANSITION_DURATION_IN_FRAMES)`.
`fps` and `overlap` are the two constants, kept as parameters. -/
def buildTimelineAux (fps overlap : ℤ) : List Scene → ℤ → List TimelinePlacement
  | [], _ => []
  | scene :: rest, currentFrame =>
    let durationInFrames : ℤ := ⌈scene.durationInSeconds * (fps : ℚ)⌉
    let startFrame : ℤ := currentFrame
    let nextFrame : ℤ := currentFrame + max 0 (durationInFrames - overlap)
    { startFrame := startFrame, durationInFrames := durationInFrames } ::
      buildTimelineAux fps overlap rest nextFrame

/-- The `timeline` computation with the cursor initialised to 0. -/
def buildTimeline (fps overlap : ℤ) (scenes : List Scene) : List TimelinePlacement :=
  buildTimelineAux fps overlap scenes 0

/-- The `timeline` memo exactly as in the source, with the constants
`FPS` and `TRANSITION_DURATION_IN_FRAMES` plugged in. -/
def timeline (scenes : List Scene) : List TimelinePlacement :=
  buildTimeline FPS TRANSITION_DURATION_IN_FRAMES scenes

/-- `getDurationInFrames` from `App.tsx` (the non-`null` branch):
sum of `Math.ceil(durationInSeconds * FPS)` over all scenes, minus
`Math.max(0, scenes.length - 1) * TRANSITION_DURATION_IN_FRAMES`. -/
def getDurationInFrames (scenes : List Scene) : ℤ :=
  let totalSceneFrames : ℤ :=
    (scenes.map (fun s => ⌈s.durationInSeconds * (FPS : ℚ)⌉)).sum
  let overlapFrames : ℤ :=
    max 0 ((scenes.length : ℤ) - 1) * TRANSITION_DURATION_IN_FRAMES
  totalSceneFrames - overlapFrames

/-! ### Subtitle Segmenter (`splitDialogueIntoChunks` and the `chunks`
memo of `SceneComponent`) -/

/-- The characters matched by the JavaScript `\s` class (`WhiteSpace` and
`LineTerminator` code points), which also form the set trimmed by
`String.prototype.trim`. -/
def jsWhitespaceChars : List Char :=
  [' ', '\t', '\n', '\r', '\x0b', '\x0c',
   '\u00A0', '\u1680', '\u2000', '\u2001', '\u2002', '\u2003', '\u2004',
   '\u2005', '\u2006', '\u2007', '\u2008', '\u2009', '\u200A', '\u2028',
   '\u2029', '\u202F', '\u205F', '\u3000', '\uFEFF']

/-- Whether a character is JavaScript whitespace. -/
def isJsWhitespace (c : Char) : Bool :=
  jsWhitespaceChars.contains c

/-- `String.prototype.trim`: remove leading and trailing whitespace. -/
def jsTrim (s : List Char) : List Char :=
  ((s.dropWhile isJsWhitespace).reverse.dropWhile isJsWhitespace).reverse

/-- The speaker identifier `じぇんば` of the prefix regex. -/
def jenbaTag : List Char := ['じ', 'ぇ', 'ん', 'ば']

/-- The speaker identifier `あいば` of the prefix regex. -/
def aibaTag : List Char := ['あ', 'い', 'ば']

/-- Match a literal tag at the front of `s`, returning the rest on
success (the anchored alternation of the prefix regex). -/
def dropTag : List Char → List Char → Option (List Char)
  | [], rest => some rest
  | _ :: _, [] => none
  | t :: ts, c :: cs => if c = t then dropTag ts cs else none

/-- Match one speaker identifier followed by `[:：]` at the front of `s`,
returning the rest on success. -/
def stripOne (tag : List Char) (s : List Char) : Option (List Char) :=
  match dropTag tag s with
  | some (c :: cs) => if c = ':' ∨ c = '：' then some cs else none
  | _ => none

/-- `text.replace(/^(じぇんば|あいば)[:：]/, '')`: remove the speaker
prefix when present, otherwise leave the text unchanged. -/
def stripSpeaker (s : List Char) : List Char :=
  match stripOne jenbaTag s with
  | some rest => rest
  | none =>
    match stripOne aibaTag s with
    | some rest => rest
    | none => s

/-- Sentence-terminal marks of the split regex `/(?<=[。！？!?])\s*/`. -/
def terminalChars : List Char := ['。', '！', '？', '!', '?']

/-- Clause-separator marks of the split regex `/(?<=[、,])\s*/`. -/
def clauseChars : List Char := ['、', ',']

/-- `s.split(/(?<=[marks])\s*/)` as a left-to-right scan.  The JavaScript
split cuts immediately after every character in `marks` and the greedy
`\s*` consumes the whitespace that follows the cut; `skip` records
whether the scan sits directly behind such a cut (zero-width matches at
a position already split, and at the very end of the string, produce no
further pieces, so the only possible empty piece is the final one). -/
def splitAfterMarksAux (marks : List Char) : List Char → List Char → Bool → List (List Char)
  | [], acc, _ => [acc.reverse]
  | c :: cs, acc, skip =>
    if skip && isJsWhitespace c then
      splitAfterMarksAux marks cs acc true
    else if marks.contains c then
      (c :: acc).reverse :: splitAfterMarksAux marks cs [] true
    else
      splitAfterMarksAux marks cs (c :: acc) false

/-- `s.split(/(?<=[marks])\s*/)` on a whole string. -/
def splitAfterMarks (marks : List Char) (s : List Char) : List (List Char) :=
  splitAfterMarksAux marks s [] false

/-- The greedy clause accumulation of `splitDialogueIntoChunks`: walk the
`subParts`, flushing the running `currentChunk` whenever appending the
next part would push its length past 30. -/
def fuseClauses : List (List Char) → List Char → List (List Char)
  | [], cur => if cur.isEmpty then [] else [cur]
  | p :: ps, cur =>
    if 30 < (cur ++ p).length then
      if cur.isEmpty then fuseClauses ps p
      else cur :: fuseClauses ps p
    else
      fuseClauses ps (cur ++ p)

/-- `splitDialogueIntoChunks` from the composition component: strip the
speaker prefix and trim, split into sentences after terminal marks
(discarding empty pieces), then emit each short sentence verbatim and
re-split long ones at clause marks with greedy accumulation. -/
def splitDialogueIntoChunks (text : List Char) : List (List Char) :=
  let cleanText := jsTrim (stripSpeaker text)
  let sentences :=
    (splitAfterMarks terminalChars cleanText).filter (fun s => decide (0 < s.length))
  sentences.flatMap (fun sentence =>
    if sentence.length < 25 then [sentence]
    else fuseClauses (splitAfterMarks clauseChars sentence) [])

/-- One element of the `chunks` memo: `{ text, startFrame, endFrame }`. -/
structure SubtitleChunk where
  text : List Char
  startFrame : ℚ
  endFrame : ℚ
deriving DecidableEq

/-- The `textChunks.map` of the `chunks` memo with the mutable
`currentStart` cursor made explicit: each chunk gets
`weight = Math.max(text.length, 5)` and
`duration = (weight / Math.max(totalChars, 1)) * totalDurationFrames`. -/
def layoutChunksAux (totalChars : ℕ) (totalDurationFrames : ℚ) :
    List (List Char) → ℚ → List SubtitleChunk
  | [], _ => []
  | t :: ts, currentStart =>
    let weight : ℚ := max (t.length : ℚ) 5
    let duration : ℚ := weight / max (totalChars : ℚ) 1 * totalDurationFrames
    { text := t, startFrame := currentStart, endFrame := currentStart + duration } ::
      layoutChunksAux totalChars totalDurationFrames ts (currentStart + duration)

/-- The `chunks` memo of `SceneComponent`:
`totalChars = textChunks.join('').length`,
`totalDurationFrames = scene.durationInSeconds * fps - 15` (end buffer,
not clamped), then the weighted back-to-back layout from 0. -/
def sceneChunks (dialogue : List Char) (durationInSeconds fps : ℚ) :
    List SubtitleChunk :=
  let textChunks := splitDialogueIntoChunks dialogue
  let totalChars : ℕ := textChunks.flatten.length
  let totalDurationFrames : ℚ := durationInSeconds * fps - 15
  layoutChunksAux totalChars totalDurationFrames textChunks 0

/-- A scene with the given duration and all presentation fields blank;
used for concrete evaluations. -/
def testScene (d : ℚ) : Scene :=
  { dialogue := []
    visualDescription := []
    keyword := []
    durationInSeconds := d
    backgroundColor := []
    audioUrl := none
    phoneticDialogue := none
    dataOverlay := { title := [], subhead := none, headers := [], row := [] } }

/-! ### Rendered sequence placements (`MyVideoComposition` return value) -/

/-- The visual `Sequence` loop: scene `index` is rendered with
`from={timeline[index].startFrame}` and
`durationInFrames={timeline[index].durationInFrames}`. -/
def visualSequences (scenes : List Scene) : List TimelinePlacement :=
  (scenes.zip (timeline scenes)).map (fun p => p.2)

/-- JavaScript truthiness of the optional `audioUrl` string: the guard
`if (!scene.audioUrl) return null` skips both a missing (`undefined`)
and an empty (`""`) url. -/
def jsTruthy : Option (List Char) → Bool
  | none => false
  | some s => !s.isEmpty

/-- The audio `Sequence` loop: scene `index` reads the same
`timeline[index]` pair, but a scene whose `audioUrl` is falsy (missing
or the empty string) renders no sequence (`return null`). -/
def audioSequences (scenes : List Scene) : List (Option TimelinePlacement) :=
  (scenes.zip (timeline scenes)).map
    (fun p => if jsTruthy p.1.audioUrl then some p.2 else none)

/-! ### Auxiliary definitions used only in statements and proofs -/

/-- `s2` is obtained from `s1` by deleting whitespace characters only:
it is a subsequence of `s1` and agrees with `s1` on the number of
occurrences of every non-whitespace character. -/
def WsReduct (s2 s1 : List Char) : Prop :=
  s2.Sublist s1 ∧
    ∀ c : Char, isJsWhitespace c = false → s2.count c = s1.count c

/-- `こんにちは。` (six characters), a one-chunk dialogue. -/
def greetChars : List Char := ['こ', 'ん', 'に', 'ち', 'は', '。']

/-- `や。` (two characters), a chunk shorter than the minimum weight 5. -/
def shortChars : List Char := ['や', '。']

/-- `こんにちは。今日はいい天気ですね。` — the two-sentence example
dialogue of the specification, without its speaker prefix. -/
def exampleDialogueBody : List Char :=
  ['こ', 'ん', 'に', 'ち', 'は', '。',
   '今', '日', 'は', 'い', 'い', '天', '気', 'で', 'す', 'ね', '。']

/-- The specification's example dialogue
`じぇんば:こんにちは。今日はいい天気ですね。`. -/
def exampleDialogue : List Char := jenbaTag ++ ':' :: exampleDialogueBody

/-! ## Lemmas about the Scene Timeline Builder -/

theorem buildTimelineAux_length (fps overlap : ℤ) :
    ∀ (scenes : List Scene) (cur : ℤ),
      (buildTimelineAux fps overlap scenes cur).length = scenes.length
  | [], _ => rfl
  | _ :: rest, cur => by
    simpa [buildTimelineAux] using buildTimelineAux_length fps overlap rest _

theorem buildTimeline_length (fps overlap : ℤ) (scenes : List Scene) :
    (buildTimeline fps overlap scenes).length = scenes.length :=
  buildTimelineAux_length fps overlap scenes 0

theorem buildTimelineAux_get_durationInFrames (fps overlap : ℤ) :
    ∀ (scenes : List Scene) (cur : ℤ) (i : ℕ) (h : i < scenes.length),
      ((buildTimelineAux fps overlap scenes cur).get
          ⟨i, by rw [buildTimelineAux_length]; exact h⟩).durationInFrames =
        ⌈(scenes.get ⟨i, h⟩).durationInSeconds * (fps : ℚ)⌉
  | _ :: _, _, 0, _ => rfl
  | _ :: rest, _, i + 1, h =>
    buildTimelineAux_get_durationInFrames fps overlap rest _ i
      (Nat.lt_of_succ_lt_succ h)

theorem buildTimelineAux_get_zero_startFrame (fps overlap : ℤ) :
    ∀ (scenes : List Scene) (cur : ℤ) (h : 0 < scenes.length),
      ((buildTimelineAux fps overlap scenes cur).get
          ⟨0, by rw [buildTimelineAux_length]; exact h⟩).startFrame = cur
  | _ :: _, _, _ => rfl

theorem buildTimelineAux_startFrame_succ (fps overlap : ℤ) :
    ∀ (scenes : List Scene) (cur : ℤ) (i : ℕ) (h : i + 1 < scenes.length),
      ((buildTimelineAux fps overlap scenes cur).get
          ⟨i + 1, by rw [buildTimelineAux_length]; exact h⟩).startFrame =
        ((buildTimelineAux fps overlap scenes cur).get
            ⟨i, by rw [buildTimelineAux_length]; omega⟩).startFrame +
          max 0 (((buildTimelineAux fps overlap scenes cur).get
              ⟨i, by rw [buildTimelineAux_length]; omega⟩).durationInFrames - overlap)
  | [], _, _, h => by simp at h
  | [_], _, _, h => by simp at h
  | _ :: _ :: _, cur, 0, h => rfl
  | s :: r :: rest, cur, i + 1, h =>
    buildTimelineAux_startFrame_succ fps overlap (r :: rest) _ i
      (Nat.lt_of_succ_lt_succ h)

theorem getLast?_cons_ne_nil {α : Type} (a : α) (l : List α) (h : l ≠ []) :
    (a :: l).getLast? = l.getLast? := by
  cases l with
  | nil => exact absurd rfl h
  | cons b bs => exact List.getLast?_cons_cons

theorem buildTimeline_startFrame_mono (fps overlap : ℤ) (scenes : List Scene)
    (i j : ℕ) (hij : i ≤ j) (hj : j < scenes.length) :
    ((buildTimeline fps overlap scenes).get
        ⟨i, by rw [buildTimeline_length]; omega⟩).startFrame ≤
      ((buildTimeline fps overlap scenes).get
          ⟨j, by rw [buildTimeline_length]; exact hj⟩).startFrame := by
  induction j, hij using Nat.le_induction with
  | base => exact le_refl _
  | succ j hij ih =>
    have h1 : j < scenes.length := Nat.lt_of_succ_lt hj
    refine le_trans (ih h1) ?_
    simp only [buildTimeline]
    rw [buildTimelineAux_startFrame_succ fps overlap scenes 0 j hj]
    exact le_add_of_nonneg_right (le_max_left 0 _)

theorem buildTimelineAux_getLast_endpoint (fps overlap : ℤ) :
    ∀ (scenes : List Scene) (cur : ℤ), scenes ≠ [] →
      (∀ s ∈ scenes, overlap ≤ ⌈s.durationInSeconds * (fps : ℚ)⌉) →
      (buildTimelineAux fps overlap scenes cur).getLast?.map
          (fun p => p.startFrame + p.durationInFrames) =
        some (cur +
          (scenes.map (fun s => ⌈s.durationInSeconds * (fps : ℚ)⌉)).sum -
          ((scenes.length : ℤ) - 1) * overlap)
  | [], _, hne, _ => absurd rfl hne
  | [s], cur, _, _ => by
    simp [buildTimelineAux]
  | s :: r :: rest, cur, _, hall => by
    have hd : overlap ≤ ⌈s.durationInSeconds * (fps : ℚ)⌉ :=
      hall s (List.mem_cons_self s _)
    have ih := buildTimelineAux_getLast_endpoint fps overlap (r :: rest)
      (cur + max 0 (⌈s.durationInSeconds * (fps : ℚ)⌉ - overlap))
      (List.cons_ne_nil r rest)
      (fun t ht => hall t (List.mem_cons_of_mem s ht))
    have hne2 : (buildTimelineAux fps overlap (r :: rest)
        (cur + max 0 (⌈s.durationInSeconds * (fps : ℚ)⌉ - overlap))) ≠ [] := by
      intro hnil
      have hlen := buildTimelineAux_length fps overlap (r :: rest)
        (cur + max 0 (⌈s.durationInSeconds * (fps : ℚ)⌉ - overlap))
      rw [hnil] at hlen
      simp at hlen
    have hcons : buildTimelineAux fps overlap (s :: r :: rest) cur =
        { startFrame := cur,
          durationInFrames := ⌈s.durationInSeconds * (fps : ℚ)⌉ } ::
          buildTimelineAux fps overlap (r :: rest)
            (cur + max 0 (⌈s.durationInSeconds * (fps : ℚ)⌉ - overlap)) := rfl
    have hstep : max 0 (⌈s.durationInSeconds * (fps : ℚ)⌉ - overlap) =
        ⌈s.durationInSeconds * (fps : ℚ)⌉ - overlap :=
      max_eq_right (by omega)
    rw [hcons, getLast?_cons_ne_nil _ _ hne2, ih, hstep]
    congr 1
    simp only [List.map_cons, List.sum_cons, List.length_cons]
    push_cast
    ring

theorem buildTimelineAux_durations_only (fps overlap : ℤ) :
    ∀ (s t : List Scene) (cur : ℤ),
      s.map Scene.durationInSeconds = t.map Scene.durationInSeconds →
      buildTimelineAux fps overlap s cur = buildTimelineAux fps overlap t cur
  | [], [], _, _ => rfl
  | [], _ :: _, _, h => by simp at h
  | _ :: _, [], _, h => by simp at h
  | a :: s, b :: t, cur, h => by
    simp only [List.map_cons, List.cons.injEq] at h
    obtain ⟨h1, h2⟩ := h
    simp only [buildTimelineAux, h1]
    congr 1
    exact buildTimelineAux_durations_only fps overlap s t _ h2

theorem timeline_length (scenes : List Scene) :
    (timeline scenes).length = scenes.length :=
  buildTimeline_length FPS TRANSITION_DURATION_IN_FRAMES scenes

theorem visualSequences_length (scenes : List Scene) :
    (visualSequences scenes).length = scenes.length := by
  simp [visualSequences, timeline_length]

theorem audioSequences_length (scenes : List Scene) :
    (audioSequences scenes).length = scenes.length := by
  simp [audioSequences, timeline_length]

/-! ## Claims about the Scene Timeline Builder -/

/-- **C1.**  For every scene list and every positive integer `fps`, the
Scene Timeline Builder returns one placement per scene in the same
order; placement `i` has `durationFrames i = ⌈durationInSeconds i × fps⌉`,
the first placement has `startFrame 0`, and
`startFrame (i+1) = startFrame i + max 0 (durationFrames i − overlapFrames)`;
consequently the start frames are monotonically non-decreasing, even when
a scene's `durationFrames` is at most `overlapFrames`. -/
theorem buildTimeline_placement_spec (fps : ℤ) (_hfps : 0 < fps)
    (overlap : ℤ) (scenes : List Scene) :
    ((buildTimeline fps overlap scenes).length = scenes.length) ∧
    (∀ (i : ℕ) (h : i < scenes.length),
      ((buildTimeline fps overlap scenes).get
          ⟨i, by rw [buildTimeline_length]; exact h⟩).durationInFrames =
        ⌈(scenes.get ⟨i, h⟩).durationInSeconds * (fps : ℚ)⌉) ∧
    (∀ h : 0 < scenes.length,
      ((buildTimeline fps overlap scenes).get
          ⟨0, by rw [buildTimeline_length]; exact h⟩).startFrame = 0) ∧
    (∀ (i : ℕ) (h : i + 1 < scenes.length),
      ((buildTimeline fps overlap scenes).get
          ⟨i + 1, by rw [buildTimeline_length]; exact h⟩).startFrame =
        ((buildTimeline fps overlap scenes).get
            ⟨i, by rw [buildTimeline_length]; omega⟩).startFrame +
          max 0 (((buildTimeline fps overlap scenes).get
              ⟨i, by rw [buildTimeline_length]; omega⟩).durationInFrames -
            overlap)) ∧
    (∀ (i j : ℕ) (hij : i ≤ j) (hj : j < scenes.length),
      ((buildTimeline fps overlap scenes).get
          ⟨i, by rw [buildTimeline_length]; omega⟩).startFrame ≤
        ((buildTimeline fps overlap scenes).get
            ⟨j, by rw [buildTimeline_length]; exact hj⟩).startFrame) :=
  ⟨buildTimeline_length fps overlap scenes,
   fun i h => buildTimelineAux_get_durationInFrames fps overlap scenes 0 i h,
   fun h => buildTimelineAux_get_zero_startFrame fps overlap scenes 0 h,
   fun i h => buildTimelineAux_startFrame_succ fps overlap scenes 0 i h,
   fun i j hij hj => buildTimeline_startFrame_mono fps overlap scenes i j hij hj⟩

/-- Witness for `buildTimeline_placement_spec` at `fps = 30`,
`overlap = 15`, `scenes = [testScene 5, testScene 3]`. -/
theorem buildTimeline_placement_spec_witness :
    ((buildTimeline 30 15 [testScene 5, testScene 3]).length =
        [testScene 5, testScene 3].length) ∧
    ((buildTimeline 30 15 [testScene 5, testScene 3]).get
        ⟨1, by rw [buildTimeline_length]; decide⟩).startFrame =
      ((buildTimeline 30 15 [testScene 5, testScene 3]).get
          ⟨0, by rw [buildTimeline_length]; decide⟩).startFrame +
        max 0 (((buildTimeline 30 15 [testScene 5, testScene 3]).get
            ⟨0, by rw [buildTimeline_length]; decide⟩).durationInFrames - 15) :=
  ⟨(buildTimeline_placement_spec 30 (by norm_num) 15
      [testScene 5, testScene 3]).1,
   (buildTimeline_placement_spec 30 (by norm_num) 15
      [testScene 5, testScene 3]).2.2.2.1 0 (by decide)⟩

/-- **C7.**  For scenes with durations `[5 s, 3 s, 4 s]` at `fps = 30` and
`overlapFrames = 15`, the builder produces `durationFrames = [150, 90, 120]`,
placements `[{0, 150}, {135, 90}, {210, 120}]`, and a total composition
length of `330 = 210 + 120` frames. -/
theorem timeline_concrete_example :
    timeline [testScene 5, testScene 3, testScene 4] =
        [⟨0, 150⟩, ⟨135, 90⟩, ⟨210, 120⟩] ∧
      getDurationInFrames [testScene 5, testScene 3, testScene 4] = 330 ∧
      getDurationInFrames [testScene 5, testScene 3, testScene 4] = 210 + 120 := by
  refine ⟨?_, ?_, ?_⟩
  · simp only [timeline, buildTimeline, buildTimelineAux, testScene, FPS,
      TRANSITION_DURATION_IN_FRAMES]
    norm_num
  all_goals
    simp only [getDurationInFrames, testScene, FPS, TRANSITION_DURATION_IN_FRAMES,
      List.map_cons, List.map_nil, List.sum_cons, List.sum_nil, List.length_cons,
      List.length_nil]
    norm_num

/-- **C10.**  The timeline placements depend only on the scenes'
`durationInSeconds`: two scene lists that agree pointwise on
`durationInSeconds` (but may differ in dialogue, audio, keyword or any
presentation field) produce identical placement lists. -/
theorem timeline_depends_only_on_durations (s t : List Scene)
    (h : s.map Scene.durationInSeconds = t.map Scene.durationInSeconds) :
    timeline s = timeline t :=
  buildTimelineAux_durations_only FPS TRANSITION_DURATION_IN_FRAMES s t 0 h

/-- Witness for `timeline_depends_only_on_durations`: editing a scene's
dialogue and audio does not move it on the timeline. -/
theorem timeline_depends_only_on_durations_witness :
    timeline [{ testScene 5 with dialogue := greetChars, audioUrl := some ['u'] },
              { testScene 3 with keyword := ['k'] }] =
      timeline [testScene 5, testScene 3] :=
  timeline_depends_only_on_durations _ _ rfl

/-- **C3 (amended).**  The total composition length is
`sum durationFrames − (N−1)·overlapFrames` with **no** clamping.  When
every scene's `durationFrames` is at least `overlapFrames`, this equals
the last placement's `startFrame + durationInFrames` (and so is at least
the last scene's own duration); without that condition it can be smaller
than the last scene's duration and even negative
(see `getDurationInFrames_no_clamp`). -/
theorem getDurationInFrames_formula (scenes : List Scene) (hne : scenes ≠ [])
    (hall : ∀ s ∈ scenes,
      TRANSITION_DURATION_IN_FRAMES ≤ ⌈s.durationInSeconds * (FPS : ℚ)⌉) :
    getDurationInFrames scenes =
        (scenes.map (fun s => ⌈s.durationInSeconds * (FPS : ℚ)⌉)).sum -
          ((scenes.length : ℤ) - 1) * TRANSITION_DURATION_IN_FRAMES ∧
      (timeline scenes).getLast?.map
          (fun p => p.startFrame + p.durationInFrames) =
        some (getDurationInFrames scenes) := by
  have hpos : 0 < scenes.length := List.length_pos.mpr hne
  have h1 : getDurationInFrames scenes =
      (scenes.map (fun s => ⌈s.durationInSeconds * (FPS : ℚ)⌉)).sum -
        ((scenes.length : ℤ) - 1) * TRANSITION_DURATION_IN_FRAMES := by
    simp only [getDurationInFrames]
    rw [max_eq_right (by omega : (0 : ℤ) ≤ (scenes.length : ℤ) - 1)]
  refine ⟨h1, ?_⟩
  have h2 := buildTimelineAux_getLast_endpoint FPS TRANSITION_DURATION_IN_FRAMES
    scenes 0 hne hall
  rw [timeline, buildTimeline, h2, h1, zero_add]

/-- Witness for `getDurationInFrames_formula` on `[5 s, 3 s]` scenes. -/
theorem getDurationInFrames_formula_witness :
    getDurationInFrames [testScene 5, testScene 3] =
        ([testScene 5, testScene 3].map
          (fun s => ⌈s.durationInSeconds * (FPS : ℚ)⌉)).sum -
          (([testScene 5, testScene 3].length : ℤ) - 1) *
            TRANSITION_DURATION_IN_FRAMES ∧
      (timeline [testScene 5, testScene 3]).getLast?.map
          (fun p => p.startFrame + p.durationInFrames) =
        some (getDurationInFrames [testScene 5, testScene 3]) :=
  getDurationInFrames_formula [testScene 5, testScene 3] (by decide)
    (by
      intro s hs
      simp only [List.mem_cons, List.mem_singleton] at hs
      rcases hs with h | h | h
      · rw [h]; simp only [testScene, FPS, TRANSITION_DURATION_IN_FRAMES]; norm_num
      · rw [h]; simp only [testScene, FPS, TRANSITION_DURATION_IN_FRAMES]; norm_num
      · cases h)

/-- **C3 counterexample.**  The code applies no clamping: for scenes of
`0.1 s` and `4 s` the total length is `108`, strictly below the last
scene's own `durationFrames = 120` (its placement being `{0, 120}`), and
for three `0.1 s` scenes the total length is negative. -/
theorem getDurationInFrames_no_clamp :
    getDurationInFrames [testScene (1/10), testScene 4] = 108 ∧
      timeline [testScene (1/10), testScene 4] = [⟨0, 3⟩, ⟨0, 120⟩] ∧
      (108 : ℤ) < 0 + 120 ∧
      getDurationInFrames [testScene (1/10), testScene (1/10), testScene (1/10)] =
        -21 := by
  refine ⟨?_, ?_, by norm_num, ?_⟩
  · simp only [getDurationInFrames, testScene, FPS, TRANSITION_DURATION_IN_FRAMES,
      List.map_cons, List.map_nil, List.sum_cons, List.sum_nil, List.length_cons,
      List.length_nil]
    norm_num
  · simp only [timeline, buildTimeline, buildTimelineAux, testScene, FPS,
      TRANSITION_DURATION_IN_FRAMES]
    norm_num
  · simp only [getDurationInFrames, testScene, FPS, TRANSITION_DURATION_IN_FRAMES,
      List.map_cons, List.map_nil, List.sum_cons, List.sum_nil, List.length_cons,
      List.length_nil]
    norm_num

/-- **C8.**  For every scene index, the audio track's sequence (when the
scene has a truthy `audioUrl`) uses exactly the same `startFrame` and
`durationInFrames` as the visual track's sequence at that index; a scene
without an `audioUrl` (missing, or the falsy empty string) contributes
no audio sequence, while its visual placement (and the placements of all
other scenes) is unchanged. -/
theorem audio_visual_alignment (scenes : List Scene) (i : ℕ)
    (hi : i < scenes.length) :
    (audioSequences scenes).get ⟨i, by rw [audioSequences_length]; exact hi⟩ =
      (if jsTruthy (scenes.get ⟨i, hi⟩).audioUrl then
        some ((visualSequences scenes).get
          ⟨i, by rw [visualSequences_length]; exact hi⟩)
      else none) := by
  simp [audioSequences, visualSequences, List.getElem_zip]

/-- Witness for `audio_visual_alignment` at index 0 of a two-scene list
whose first scene carries audio. -/
theorem audio_visual_alignment_witness :
    (audioSequences [{ testScene 5 with audioUrl := some ['u'] }, testScene 3]).get
        ⟨0, by rw [audioSequences_length]; decide⟩ =
      (if jsTruthy ([{ testScene 5 with audioUrl := some ['u'] }, testScene 3].get
            ⟨0, by decide⟩).audioUrl then
        some ((visualSequences
            [{ testScene 5 with audioUrl := some ['u'] }, testScene 3]).get
          ⟨0, by rw [visualSequences_length]; decide⟩)
      else none) :=
  audio_visual_alignment [{ testScene 5 with audioUrl := some ['u'] }, testScene 3]
    0 (by decide)

/-! ## Lemmas about the subtitle chunk layout -/

theorem layoutChunksAux_length (tc : ℕ) (A : ℚ) :
    ∀ (ts : List (List Char)) (cur : ℚ),
      (layoutChunksAux tc A ts cur).length = ts.length
  | [], _ => rfl
  | _ :: ts, _ => by
    simpa [layoutChunksAux] using layoutChunksAux_length tc A ts _

theorem layoutChunksAux_map_text (tc : ℕ) (A : ℚ) :
    ∀ (ts : List (List Char)) (cur : ℚ),
      (layoutChunksAux tc A ts cur).map SubtitleChunk.text = ts
  | [], _ => rfl
  | _ :: ts, _ => by
    simpa [layoutChunksAux] using layoutChunksAux_map_text tc A ts _

theorem layoutChunksAux_get_endFrame (tc : ℕ) (A : ℚ) :
    ∀ (ts : List (List Char)) (cur : ℚ) (i : ℕ) (h : i < ts.length),
      ((layoutChunksAux tc A ts cur).get
          ⟨i, by rw [layoutChunksAux_length]; exact h⟩).endFrame =
        ((layoutChunksAux tc A ts cur).get
            ⟨i, by rw [layoutChunksAux_length]; exact h⟩).startFrame +
          max ((((layoutChunksAux tc A ts cur).get
              ⟨i, by rw [layoutChunksAux_length]; exact h⟩).text.length : ℚ)) 5 /
            max (tc : ℚ) 1 * A
  | _ :: _, _, 0, _ => rfl
  | _ :: ts, _, i + 1, h =>
    layoutChunksAux_get_endFrame tc A ts _ i (Nat.lt_of_succ_lt_succ h)

theorem layoutChunksAux_get_zero_startFrame (tc : ℕ) (A : ℚ) :
    ∀ (ts : List (List Char)) (cur : ℚ) (h : 0 < ts.length),
      ((layoutChunksAux tc A ts cur).get
          ⟨0, by rw [layoutChunksAux_length]; exact h⟩).startFrame = cur
  | _ :: _, _, _ => rfl

theorem layoutChunksAux_startFrame_succ (tc : ℕ) (A : ℚ) :
    ∀ (ts : List (List Char)) (cur : ℚ) (i : ℕ) (h : i + 1 < ts.length),
      ((layoutChunksAux tc A ts cur).get
          ⟨i + 1, by rw [layoutChunksAux_length]; exact h⟩).startFrame =
        ((layoutChunksAux tc A ts cur).get
            ⟨i, by rw [layoutChunksAux_length]; omega⟩).endFrame
  | [], _, _, h => by simp at h
  | [_], _, _, h => by simp at h
  | _ :: _ :: _, _, 0, _ => rfl
  | t :: r :: ts, _, i + 1, h =>
    layoutChunksAux_startFrame_succ tc A (r :: ts) _ i (Nat.lt_of_succ_lt_succ h)

theorem layoutChunksAux_endFrame_le (tc : ℕ) (A : ℚ) (hA : 0 ≤ A) :
    ∀ (ts : List (List Char)) (cur : ℚ) (ch : SubtitleChunk),
      ch ∈ layoutChunksAux tc A ts cur →
      ch.endFrame ≤
        cur + (ts.map (fun t => max ((t.length : ℚ)) 5)).sum / max (tc : ℚ) 1 * A
  | [], _, _, h => absurd h (List.not_mem_nil _)
  | t :: ts, cur, ch, h => by
    have hM : (0 : ℚ) < max (tc : ℚ) 1 :=
      lt_of_lt_of_le one_pos (le_max_right _ _)
    have hwt : (0 : ℚ) ≤ max ((t.length : ℚ)) 5 :=
      le_trans (by norm_num) (le_max_right _ _)
    have hS : (0 : ℚ) ≤ (ts.map (fun t => max ((t.length : ℚ)) 5)).sum := by
      refine List.sum_nonneg ?_
      intro x hx
      obtain ⟨u, _, rfl⟩ := List.mem_map.mp hx
      exact le_trans (by norm_num) (le_max_right _ _)
    rcases List.mem_cons.mp h with h1 | h1
    · subst h1
      show cur + max ((t.length : ℚ)) 5 / max (tc : ℚ) 1 * A ≤ _
      simp only [List.map_cons, List.sum_cons]
      have hdiv : max ((t.length : ℚ)) 5 / max (tc : ℚ) 1 ≤
          (max ((t.length : ℚ)) 5 +
            (ts.map (fun t => max ((t.length : ℚ)) 5)).sum) / max (tc : ℚ) 1 :=
        (div_le_div_iff_of_pos_right hM).mpr (le_add_of_nonneg_right hS)
      have := mul_le_mul_of_nonneg_right hdiv hA
      linarith
    · have hrec := layoutChunksAux_endFrame_le tc A hA ts
        (cur + max ((t.length : ℚ)) 5 / max (tc : ℚ) 1 * A) ch h1
      simp only [List.map_cons, List.sum_cons]
      calc ch.endFrame ≤ cur + max ((t.length : ℚ)) 5 / max (tc : ℚ) 1 * A +
            (ts.map (fun t => max ((t.length : ℚ)) 5)).sum / max (tc : ℚ) 1 * A :=
          hrec
        _ = cur + (max ((t.length : ℚ)) 5 +
              (ts.map (fun t => max ((t.length : ℚ)) 5)).sum) / max (tc : ℚ) 1 * A := by
          ring
        _ ≤ _ := le_refl _

theorem layoutChunksAux_start_lt_end (tc : ℕ) (A : ℚ) (hA : 0 < A) :
    ∀ (ts : List (List Char)) (cur : ℚ) (ch : SubtitleChunk),
      ch ∈ layoutChunksAux tc A ts cur → ch.startFrame < ch.endFrame
  | [], _, _, h => absurd h (List.not_mem_nil _)
  | t :: ts, cur, ch, h => by
    rcases List.mem_cons.mp h with h1 | h1
    · subst h1
      show cur < cur + max ((t.length : ℚ)) 5 / max (tc : ℚ) 1 * A
      have hM : (0 : ℚ) < max (tc : ℚ) 1 :=
        lt_of_lt_of_le one_pos (le_max_right _ _)
      have hw : (0 : ℚ) < max ((t.length : ℚ)) 5 :=
        lt_of_lt_of_le (by norm_num) (le_max_right _ _)
      exact lt_add_of_pos_right _ (mul_pos (div_pos hw hM) hA)
    · exact layoutChunksAux_start_lt_end tc A hA ts _ ch h1

theorem sceneChunks_length (dialogue : List Char) (dur fps : ℚ) :
    (sceneChunks dialogue dur fps).length =
      (splitDialogueIntoChunks dialogue).length :=
  layoutChunksAux_length _ _ _ _

/-! ## Claims about the Subtitle Segmenter timing -/

/-- **C2.**  For every dialogue, the `chunks` memo assigns chunk `k` the
duration `max (Lk) 5 / max totalChars 1 * (durationInSeconds * fps - 15)`
(`Lk` being the chunk's character length and `totalChars` the sum of all
chunk lengths), and lays the chunks out back-to-back: chunk 0 starts at
frame 0 and each chunk's `startFrame` equals the previous chunk's
`endFrame` (contiguous, non-overlapping). -/
theorem sceneChunks_timing_spec (dialogue : List Char) (dur fps : ℚ) :
    ((sceneChunks dialogue dur fps).map SubtitleChunk.text =
        splitDialogueIntoChunks dialogue) ∧
    (∀ (i : ℕ) (h : i < (sceneChunks dialogue dur fps).length),
      ((sceneChunks dialogue dur fps).get ⟨i, h⟩).endFrame =
        ((sceneChunks dialogue dur fps).get ⟨i, h⟩).startFrame +
          max ((((sceneChunks dialogue dur fps).get ⟨i, h⟩).text.length : ℚ)) 5 /
            max (((splitDialogueIntoChunks dialogue).flatten.length : ℚ)) 1 *
            (dur * fps - 15)) ∧
    (∀ h : 0 < (sceneChunks dialogue dur fps).length,
      ((sceneChunks dialogue dur fps).get ⟨0, h⟩).startFrame = 0) ∧
    (∀ (i : ℕ) (h : i + 1 < (sceneChunks dialogue dur fps).length),
      ((sceneChunks dialogue dur fps).get ⟨i + 1, h⟩).startFrame =
        ((sceneChunks dialogue dur fps).get ⟨i, Nat.lt_of_succ_lt h⟩).endFrame) := by
  have hlen := sceneChunks_length dialogue dur fps
  refine ⟨layoutChunksAux_map_text _ _ _ _, ?_, ?_, ?_⟩
  · intro i h
    exact layoutChunksAux_get_endFrame
      (splitDialogueIntoChunks dialogue).flatten.length (dur * fps - 15)
      (splitDialogueIntoChunks dialogue) 0 i (by rw [← hlen]; exact h)
  · intro h
    exact layoutChunksAux_get_zero_startFrame
      (splitDialogueIntoChunks dialogue).flatten.length (dur * fps - 15)
      (splitDialogueIntoChunks dialogue) 0 (by rw [← hlen]; exact h)
  · intro i h
    exact layoutChunksAux_startFrame_succ
      (splitDialogueIntoChunks dialogue).flatten.length (dur * fps - 15)
      (splitDialogueIntoChunks dialogue) 0 i (by rw [← hlen]; exact h)

/-- Witness for `sceneChunks_timing_spec` on the specification's example
dialogue at 10 s, 30 fps: two chunks, the first starting at 0 and the
second starting where the first ends. -/
theorem sceneChunks_timing_spec_witness :
    ((sceneChunks exampleDialogue 10 30).map SubtitleChunk.text =
        splitDialogueIntoChunks exampleDialogue) ∧
    ((sceneChunks exampleDialogue 10 30).get
        ⟨0, by rw [sceneChunks_length]; decide⟩).startFrame = 0 ∧
    ((sceneChunks exampleDialogue 10 30).get
        ⟨1, by rw [sceneChunks_length]; decide⟩).startFrame =
      ((sceneChunks exampleDialogue 10 30).get
          ⟨0, by rw [sceneChunks_length]; decide⟩).endFrame :=
  ⟨(sceneChunks_timing_spec exampleDialogue 10 30).1,
   (sceneChunks_timing_spec exampleDialogue 10 30).2.2.1
     (by rw [sceneChunks_length]; decide),
   (sceneChunks_timing_spec exampleDialogue 10 30).2.2.2 0
     (by rw [sceneChunks_length]; decide)⟩

theorem sum_weights_of_min_len :
    ∀ (ts : List (List Char)), (∀ t ∈ ts, 5 ≤ t.length) →
      (ts.map (fun t => max ((t.length : ℚ)) 5)).sum = ((ts.flatten.length : ℚ))
  | [], _ => by simp
  | t :: ts, h => by
    have h5 : (5 : ℚ) ≤ (t.length : ℚ) := by
      exact_mod_cast h t (List.mem_cons_self t ts)
    simp only [List.map_cons, List.sum_cons, List.flatten_cons, List.length_append]
    rw [max_eq_left h5,
      sum_weights_of_min_len ts (fun u hu => h u (List.mem_cons_of_mem t hu))]
    push_cast
    ring

/-- **C5 (amended).**  When every emitted chunk has at least 5 characters
(so no chunk receives the boosted minimum weight) and the available frame
count `durationInSeconds * fps - 15` is non-negative, every chunk's
`endFrame` — in particular the last one's — is at most
`durationInSeconds * fps - 15`.  When some chunk is shorter than 5
characters the layout can overrun the available frames
(see `sceneChunks_endFrame_overrun`). -/
theorem sceneChunks_endFrame_le (dialogue : List Char) (dur fps : ℚ)
    (hlen : ∀ t ∈ splitDialogueIntoChunks dialogue, 5 ≤ t.length)
    (hA : 0 ≤ dur * fps - 15) :
    ∀ ch ∈ sceneChunks dialogue dur fps, ch.endFrame ≤ dur * fps - 15 := by
  intro ch hch
  have hb := layoutChunksAux_endFrame_le
    (splitDialogueIntoChunks dialogue).flatten.length (dur * fps - 15) hA
    (splitDialogueIntoChunks dialogue) 0 ch hch
  rw [sum_weights_of_min_len _ hlen] at hb
  have hratio : (((splitDialogueIntoChunks dialogue).flatten.length : ℚ)) /
      max (((splitDialogueIntoChunks dialogue).flatten.length : ℚ)) 1 ≤ 1 :=
    div_le_one_of_le₀ (le_max_left _ 1)
      (le_of_lt (lt_of_lt_of_le one_pos (le_max_right _ 1)))
  have hmul := mul_le_of_le_one_left hA hratio
  linarith

/-- Witness for `sceneChunks_endFrame_le`: the single six-character chunk
of `こんにちは。` at 10 s, 30 fps ends no later than frame 285. -/
theorem sceneChunks_endFrame_le_witness :
    ((sceneChunks greetChars 10 30).get
        ⟨0, by rw [sceneChunks_length]; decide⟩).endFrame ≤ (10 : ℚ) * 30 - 15 :=
  sceneChunks_endFrame_le greetChars 10 30 (by decide) (by norm_num) _
    (List.get_mem _ _ _)

/-- **C5 counterexample.**  For the two-character dialogue `や。` at 10 s,
30 fps the single chunk receives weight `max 2 5 = 5` over
`totalChars = 2`, so its `endFrame` is `5/2 · 285 = 712.5`, exceeding the
available `totalDurationFrames − endBuffer = 285`: the layout extends
past the available frames. -/
theorem sceneChunks_endFrame_overrun :
    sceneChunks shortChars 10 30 =
        [{ text := shortChars, startFrame := 0, endFrame := 1425 / 2 }] ∧
      ¬ ((1425 / 2 : ℚ) ≤ 10 * 30 - 15) := by
  constructor
  · have h : splitDialogueIntoChunks shortChars = [shortChars] := by decide
    simp only [sceneChunks, h, layoutChunksAux, List.flatten, shortChars,
      List.length]
    norm_num
  · norm_num

/-- **C6 (amended).**  The division in the chunk timing is guarded by
`max totalChars 1`, but the available frame count
`durationInSeconds * fps - 15` is **not** clamped to 0.  Every chunk
satisfies `startFrame < endFrame` provided the scene's duration in frames
exceeds the 15-frame end buffer; when it does not, chunks with
non-positive durations are produced (see `sceneChunks_negative_duration`). -/
theorem sceneChunks_positive_duration (dialogue : List Char) (dur fps : ℚ)
    (hA : 15 < dur * fps) :
    ∀ ch ∈ sceneChunks dialogue dur fps, ch.startFrame < ch.endFrame :=
  fun ch hch => layoutChunksAux_start_lt_end
    (splitDialogueIntoChunks dialogue).flatten.length (dur * fps - 15)
    (by linarith) (splitDialogueIntoChunks dialogue) 0 ch hch

/-- Witness for `sceneChunks_positive_duration` on `こんにちは。` at 10 s,
30 fps. -/
theorem sceneChunks_positive_duration_witness :
    ((sceneChunks greetChars 10 30).get
        ⟨0, by rw [sceneChunks_length]; decide⟩).startFrame <
      ((sceneChunks greetChars 10 30).get
          ⟨0, by rw [sceneChunks_length]; decide⟩).endFrame :=
  sceneChunks_positive_duration greetChars 10 30 (by norm_num) _
    (List.get_mem _ _ _)

/-- **C6 counterexample.**  The available frame count is not clamped: for
a 0-second scene at 30 fps the dialogue `こんにちは。` yields a chunk
with `endFrame = -15 < 0 = startFrame`, i.e. a negative-duration chunk is
propagated to the renderer. -/
theorem sceneChunks_negative_duration :
    sceneChunks greetChars 0 30 =
        [{ text := greetChars, startFrame := 0, endFrame := -15 }] ∧
      ¬ ((0 : ℚ) < -15) := by
  constructor
  · have h : splitDialogueIntoChunks greetChars = [greetChars] := by decide
    simp only [sceneChunks, h, layoutChunksAux, List.flatten, greetChars,
      List.length]
    norm_num
  · norm_num

/-! ## Concatenating the chunks reconstructs the stripped dialogue -/

theorem WsReduct.refl (s : List Char) : WsReduct s s :=
  ⟨List.Sublist.refl s, fun _ _ => rfl⟩

theorem WsReduct.trans {a b c : List Char} (h1 : WsReduct a b)
    (h2 : WsReduct b c) : WsReduct a c :=
  ⟨h1.1.trans h2.1, fun ch hch => (h1.2 ch hch).trans (h2.2 ch hch)⟩

theorem WsReduct.append {a b c d : List Char} (h1 : WsReduct a b)
    (h2 : WsReduct c d) : WsReduct (a ++ c) (b ++ d) := by
  refine ⟨h1.1.append h2.1, ?_⟩
  intro ch hch
  rw [List.count_append, List.count_append, h1.2 ch hch, h2.2 ch hch]

theorem wsReduct_cons_ws_middle (x a l : List Char) (c : Char)
    (hc : isJsWhitespace c = true) (h : WsReduct x (a ++ l)) :
    WsReduct x (a ++ c :: l) := by
  refine ⟨h.1.trans ((List.sublist_cons_self c l).append_left a), ?_⟩
  intro ch hch
  rw [h.2 ch hch, List.count_append, List.count_append, List.count_cons]
  have hne : ¬ (c = ch) := by
    intro e
    rw [e, hch] at hc
    cases hc
  simp [hne]

theorem wsReduct_splitAfterMarksAux (marks : List Char) :
    ∀ (s acc : List Char) (skip : Bool),
      WsReduct (splitAfterMarksAux marks s acc skip).flatten (acc.reverse ++ s)
  | [], acc, skip => by
    simpa [splitAfterMarksAux] using WsReduct.refl acc.reverse
  | c :: cs, acc, skip => by
    simp only [splitAfterMarksAux]
    by_cases h1 : skip && isJsWhitespace c
    · rw [if_pos h1]
      have hc : isJsWhitespace c = true := by
        have h3 := h1
        simp only [Bool.and_eq_true] at h3
        exact h3.2
      exact wsReduct_cons_ws_middle _ _ _ _ hc
        (wsReduct_splitAfterMarksAux marks cs acc true)
    · rw [if_neg h1]
      by_cases h2 : marks.contains c
      · rw [if_pos h2]
        have ih := wsReduct_splitAfterMarksAux marks cs [] true
        simp only [List.reverse_nil, List.nil_append] at ih
        have happ := (WsReduct.refl ((c :: acc).reverse)).append ih
        rw [List.flatten_cons] at *
        simpa [List.reverse_cons, List.append_assoc] using happ
      · rw [if_neg h2]
        have ih := wsReduct_splitAfterMarksAux marks cs (c :: acc) false
        simpa [List.reverse_cons, List.append_assoc] using ih

theorem wsReduct_splitAfterMarks (marks s : List Char) :
    WsReduct (splitAfterMarks marks s).flatten s := by
  simpa [splitAfterMarks] using wsReduct_splitAfterMarksAux marks s [] false

theorem flatten_filter_pos (l : List (List Char)) :
    (l.filter (fun s => decide (0 < s.length))).flatten = l.flatten := by
  induction l with
  | nil => rfl
  | cons p ps ih =>
    by_cases hp : 0 < p.length
    · simp [List.filter_cons, hp, ih]
    · have hnil : p = [] := List.eq_nil_of_length_eq_zero (by omega)
      simp [List.filter_cons, hp, hnil, ih]

theorem fuseClauses_flatten :
    ∀ (parts : List (List Char)) (cur : List Char),
      (fuseClauses parts cur).flatten = cur ++ parts.flatten
  | [], cur => by
    by_cases h : cur.isEmpty
    · simp [fuseClauses, h, List.isEmpty_iff.mp h]
    · simp [fuseClauses, h]
  | p :: ps, cur => by
    simp only [fuseClauses]
    by_cases h : 30 < (cur ++ p).length
    · rw [if_pos h]
      by_cases he : cur.isEmpty
      · rw [if_pos he, fuseClauses_flatten ps p]
        simp [List.isEmpty_iff.mp he]
      · rw [if_neg he]
        simp [fuseClauses_flatten ps p]
    · rw [if_neg h, fuseClauses_flatten ps (cur ++ p)]
      simp

theorem wsReduct_flatMap (f : List Char → List (List Char)) :
    ∀ (l : List (List Char)),
      (∀ x ∈ l, WsReduct ((f x).flatten) x) →
      WsReduct ((l.flatMap f).flatten) l.flatten
  | [], _ => WsReduct.refl []
  | x :: xs, h => by
    simp only [List.flatMap_cons, List.flatten_append, List.flatten_cons]
    exact (h x (List.mem_cons_self x xs)).append
      (wsReduct_flatMap f xs (fun y hy => h y (List.mem_cons_of_mem x hy)))

theorem wsReduct_dropWhile (s : List Char) :
    WsReduct (s.dropWhile isJsWhitespace) s := by
  refine ⟨List.dropWhile_sublist isJsWhitespace, ?_⟩
  intro ch hch
  conv_rhs => rw [← List.takeWhile_append_dropWhile isJsWhitespace s]
  rw [List.count_append]
  have hz : (s.takeWhile isJsWhitespace).count ch = 0 := by
    rw [List.count_eq_zero]
    intro hmem
    rw [List.mem_takeWhile_imp hmem] at hch
    cases hch
  omega

theorem wsReduct_reverse {a b : List Char} (h : WsReduct a b) :
    WsReduct a.reverse b.reverse := by
  refine ⟨h.1.reverse, ?_⟩
  intro ch hch
  rw [List.count_reverse, List.count_reverse]
  exact h.2 ch hch

theorem wsReduct_jsTrim (s : List Char) : WsReduct (jsTrim s) s := by
  have h1 : WsReduct (jsTrim s) (s.dropWhile isJsWhitespace).reverse.reverse :=
    wsReduct_reverse (wsReduct_dropWhile (s.dropWhile isJsWhitespace).reverse)
  rw [List.reverse_reverse] at h1
  exact h1.trans (wsReduct_dropWhile s)

theorem splitDialogueIntoChunks_ws_reduct (text : List Char) :
    WsReduct (splitDialogueIntoChunks text).flatten (stripSpeaker text) := by
  have hstep : ∀ sentence ∈ (splitAfterMarks terminalChars
      (jsTrim (stripSpeaker text))).filter (fun s => decide (0 < s.length)),
      WsReduct ((if sentence.length < 25 then [sentence]
        else fuseClauses (splitAfterMarks clauseChars sentence) []).flatten)
        sentence := by
    intro sentence _
    by_cases h : sentence.length < 25
    · rw [if_pos h]
      simpa using WsReduct.refl sentence
    · rw [if_neg h, fuseClauses_flatten, List.nil_append]
      exact wsReduct_splitAfterMarks clauseChars sentence
  have h1 := wsReduct_flatMap _ _ hstep
  rw [flatten_filter_pos] at h1
  exact (h1.trans (wsReduct_splitAfterMarks terminalChars
    (jsTrim (stripSpeaker text)))).trans (wsReduct_jsTrim (stripSpeaker text))

/-- **C4.**  Concatenating the texts of all emitted subtitle chunks in
order reproduces the speaker-stripped dialogue exactly up to removal of
whitespace at the splitting boundaries: the concatenation is a
subsequence of the stripped dialogue, and no non-whitespace character is
dropped or duplicated (occurrence counts agree). -/
theorem chunks_concat_reconstruct (text : List Char) (c : Char)
    (hc : isJsWhitespace c = false) :
    (splitDialogueIntoChunks text).flatten.Sublist (stripSpeaker text) ∧
      (splitDialogueIntoChunks text).flatten.count c =
        (stripSpeaker text).count c :=
  ⟨(splitDialogueIntoChunks_ws_reduct text).1,
   (splitDialogueIntoChunks_ws_reduct text).2 c hc⟩

/-- Witness for `chunks_concat_reconstruct` on the specification's
example dialogue and the character `こ`. -/
theorem chunks_concat_reconstruct_witness :
    (splitDialogueIntoChunks exampleDialogue).flatten.Sublist
        (stripSpeaker exampleDialogue) ∧
      (splitDialogueIntoChunks exampleDialogue).flatten.count 'こ' =
        (stripSpeaker exampleDialogue).count 'こ' :=
  chunks_concat_reconstruct exampleDialogue 'こ' (by decide)

/-! ## Edge cases of the Subtitle Segmenter -/

theorem dropTag_append : ∀ (tag rest : List Char),
    dropTag tag (tag ++ rest) = some rest
  | [], _ => rfl
  | t :: ts, rest => by
    simp [dropTag, dropTag_append ts rest]

theorem stripSpeaker_jenba (sep : Char) (hsep : sep = ':' ∨ sep = '：')
    (ws : List Char) : stripSpeaker (jenbaTag ++ sep :: ws) = ws := by
  simp only [stripSpeaker, stripOne, dropTag_append, if_pos hsep]

theorem stripSpeaker_aiba (sep : Char) (hsep : sep = ':' ∨ sep = '：')
    (ws : List Char) : stripSpeaker (aibaTag ++ sep :: ws) = ws := by
  have hj : dropTag jenbaTag (aibaTag ++ sep :: ws) = none := by
    simp [jenbaTag, aibaTag, dropTag]
  simp only [stripSpeaker, stripOne, hj, dropTag_append, if_pos hsep]

theorem dropWhile_eq_nil_of_all (p : Char → Bool) :
    ∀ (l : List Char), (∀ c ∈ l, p c = true) → l.dropWhile p = []
  | [], _ => rfl
  | c :: cs, h => by
    rw [List.dropWhile_cons, if_pos (h c (List.mem_cons_self c cs))]
    exact dropWhile_eq_nil_of_all p cs (fun d hd => h d (List.mem_cons_of_mem c hd))

theorem jsTrim_all_ws (ws : List Char)
    (h : ∀ c ∈ ws, isJsWhitespace c = true) : jsTrim ws = [] := by
  unfold jsTrim
  rw [dropWhile_eq_nil_of_all _ ws h]
  rfl

theorem splitDialogueIntoChunks_of_trim_nil (text : List Char)
    (h : jsTrim (stripSpeaker text) = []) :
    splitDialogueIntoChunks text = [] := by
  simp only [splitDialogueIntoChunks, h, splitAfterMarks, splitAfterMarksAux]
  rfl

theorem fuseClauses_mem_ne_nil :
    ∀ (parts : List (List Char)) (cur ch : List Char),
      ch ∈ fuseClauses parts cur → ch ≠ []
  | [], cur, ch, h => by
    by_cases he : cur.isEmpty
    · rw [fuseClauses, if_pos he] at h
      exact absurd h (List.not_mem_nil ch)
    · rw [fuseClauses, if_neg he] at h
      have : ch = cur := by simpa using h
      subst this
      exact fun e => he (by rw [e]; rfl)
  | p :: ps, cur, ch, h => by
    rw [fuseClauses] at h
    by_cases h30 : 30 < (cur ++ p).length
    · rw [if_pos h30] at h
      by_cases he : cur.isEmpty
      · rw [if_pos he] at h
        exact fuseClauses_mem_ne_nil ps p ch h
      · rw [if_neg he] at h
        rcases List.mem_cons.mp h with h1 | h1
        · subst h1
          exact fun e => he (by rw [e]; rfl)
        · exact fuseClauses_mem_ne_nil ps p ch h1
    · rw [if_neg h30] at h
      exact fuseClauses_mem_ne_nil ps (cur ++ p) ch h

theorem splitDialogueIntoChunks_mem_ne_nil (text : List Char) :
    ∀ ch ∈ splitDialogueIntoChunks text, ch ≠ [] := by
  intro ch hch
  simp only [splitDialogueIntoChunks, List.mem_flatMap] at hch
  obtain ⟨sentence, hs, hcn⟩ := hch
  by_cases h : sentence.length < 25
  · rw [if_pos h] at hcn
    have he : ch = sentence := by simpa using hcn
    subst he
    have hf := List.of_mem_filter hs
    intro e
    rw [e] at hf
    simp at hf
  · rw [if_neg h] at hcn
    exact fuseClauses_mem_ne_nil _ _ ch hcn

/-- **C9.**  An empty dialogue, or one consisting only of a recognized
speaker tag (`じぇんば` or `あいば` followed by `:` or `：`) and
whitespace, yields the empty chunk list; and for every dialogue
whatsoever, every emitted chunk's text is non-empty. -/
theorem splitDialogueIntoChunks_edge_spec :
    (splitDialogueIntoChunks [] = []) ∧
    (∀ tag ∈ [jenbaTag, aibaTag], ∀ sep : Char, (sep = ':' ∨ sep = '：') →
      ∀ ws : List Char, (∀ c ∈ ws, isJsWhitespace c = true) →
        splitDialogueIntoChunks (tag ++ sep :: ws) = []) ∧
    (∀ text : List Char, ∀ ch ∈ splitDialogueIntoChunks text, ch ≠ []) := by
  refine ⟨by decide, ?_, splitDialogueIntoChunks_mem_ne_nil⟩
  intro tag htag sep hsep ws hws
  apply splitDialogueIntoChunks_of_trim_nil
  rcases List.mem_cons.mp htag with h | h
  · rw [h, stripSpeaker_jenba sep hsep ws]
    exact jsTrim_all_ws ws hws
  · have h2 : tag = aibaTag := by simpa using h
    rw [h2, stripSpeaker_aiba sep hsep ws]
    exact jsTrim_all_ws ws hws

/-- Witness for `splitDialogueIntoChunks_edge_spec`: the dialogue
`じぇんば: ` (tag, colon, one space) yields no chunks, and the chunk
emitted for `や。` is non-empty. -/
theorem splitDialogueIntoChunks_edge_spec_witness :
    splitDialogueIntoChunks (jenbaTag ++ ':' :: [' ']) = [] ∧
      shortChars ≠ [] :=
  ⟨splitDialogueIntoChunks_edge_spec.2.1 jenbaTag
      (List.mem_cons_self jenbaTag [aibaTag]) ':' (Or.inl rfl) [' ']
      (by decide),
   splitDialogueIntoChunks_edge_spec.2.2 shortChars shortChars (by decide)⟩
